import Mathlib

/-!
Shallow embedding of the type-tree / histogram-attribution core of the
llvm-memprof field-access tool (`src/type_tree.h`, `src/type_tree.cc`,
`src/histogram_builder.cc`, `src/dwarf_metadata_fetcher.cc`,
`src/type_tree_container_blueprints.h`, `src/type_resolver.cc`), together
with proofs of the claims about it.

Modelling conventions:
* `int64_t` sizes and offsets are modelled as `Int`; the C++ truncating
  division and remainder (`/`, `%` on signed integers) are `Int.tdiv` and
  `Int.tmod`.
* `uint64_t` access counters are modelled as `Nat` (they are only ever
  added to).
* fallible functions return an explicit status value.
-/

namespace FieldAccess

/-- `TypeTree::AccessCounters`: `total`, `access`, `llc_miss` (`uint64_t`). -/
structure AccessCounters where
  total : Nat
  access : Nat
  llcMiss : Nat
deriving Repr, DecidableEq

/-- `TypeTree::AccessCounters::AccessType`. -/
inductive AccessType where
  | access
  | llcMiss
deriving Repr, DecidableEq

/-- The `ObjectLayout::Properties::TypeKind` values. -/
inductive TypeKind where
  | unknownType
  | builtinType
  | recordType
  | indirectionType
  | arrayType
  | paddingType
  | enumType
deriving Repr, DecidableEq

/-- `TypeTree::Node`: the `ObjectLayout` properties a node wraps
(name, type name, offset in bits, size in bits, multiplicity, type kind)
plus the node's global offset, access counters, union flag and children.
The display-only `object_kind` property is not consulted by any of the
verified operations and is not modelled. -/
inductive Node where
  | mk (name : String) (typeName : String) (offsetBits : Int) (sizeBits : Int)
      (multiplicity : Int) (typeKind : TypeKind) (globalOffset : Int)
      (accessCounters : AccessCounters) (isUnion : Bool)
      (children : List Node)

def Node.name : Node → String
  | .mk n _ _ _ _ _ _ _ _ _ => n

def Node.typeName : Node → String
  | .mk _ tn _ _ _ _ _ _ _ _ => tn

/-- `Node::GetOffsetBits`. -/
def Node.offsetBits : Node → Int
  | .mk _ _ ob _ _ _ _ _ _ _ => ob

/-- `Node::GetSizeBits`. -/
def Node.sizeBits : Node → Int
  | .mk _ _ _ sb _ _ _ _ _ _ => sb

/-- `Node::GetMultiplicity`. -/
def Node.multiplicity : Node → Int
  | .mk _ _ _ _ m _ _ _ _ _ => m

def Node.typeKind : Node → TypeKind
  | .mk _ _ _ _ _ tk _ _ _ _ => tk

/-- `Node::GetGlobalOffsetBits`. -/
def Node.globalOffset : Node → Int
  | .mk _ _ _ _ _ _ go _ _ _ => go

def Node.accessCounters : Node → AccessCounters
  | .mk _ _ _ _ _ _ _ ac _ _ => ac

/-- `Node::IsUnion`. -/
def Node.isUnion : Node → Bool
  | .mk _ _ _ _ _ _ _ _ iu _ => iu

def Node.children : Node → List Node
  | .mk _ _ _ _ _ _ _ _ _ cs => cs

/-- `Node::GetOffsetBytes` (`offset_bits / 8`, C++ truncating division). -/
def Node.offsetBytes (n : Node) : Int := Int.tdiv n.offsetBits 8

/-- `Node::GetSizeBytes`. -/
def Node.sizeBytes (n : Node) : Int := Int.tdiv n.sizeBits 8

/-- `Node::GetFullSizeBits` (`size_bits * multiplicity`). -/
def Node.fullSizeBits (n : Node) : Int := n.sizeBits * n.multiplicity

/-- `Node::GetFullSizeBytes` (`size_bits * multiplicity / 8`). -/
def Node.fullSizeBytes (n : Node) : Int := Int.tdiv (n.sizeBits * n.multiplicity) 8

/-- `Node::GetGlobalOffsetBytes`. -/
def Node.globalOffsetBytes (n : Node) : Int := Int.tdiv n.globalOffset 8

/-- `Node::GetTotalAccessCount`. -/
def Node.totalAccessCount (n : Node) : Nat := n.accessCounters.total

/-- `Node::IsPadding`. -/
def Node.isPadding (n : Node) : Bool := n.typeKind == .paddingType

/-- `Node::NumChildren`. -/
def Node.numChildren (n : Node) : Nat := n.children.length

/-- The free function `Overlap(a1, a2, b1, b2)` of `type_tree.h`:
`max(a2, b2) - min(a1, b1) < (a2 - a1) + (b2 - b1)`. -/
def Overlap (a1 a2 b1 b2 : Int) : Bool :=
  decide (max a2 b2 - min a1 b1 < (a2 - a1) + (b2 - b1))

/-- `TypeTree::Node::IncrementAccessCount<AccessType>`: add `count` to
`total` and to the counter selected by the access type. -/
def incrementAccessCount (t : AccessType) (count : Nat)
    (ac : AccessCounters) : AccessCounters :=
  match t with
  | .access => ⟨ac.total + count, ac.access + count, ac.llcMiss⟩
  | .llcMiss => ⟨ac.total + count, ac.access, ac.llcMiss + count⟩

mutual

/-- `TypeTree::Node::RecordAccess<AccessGranularity, AccessType>` (private
overload taking `array_element_offsets`). Returns the updated node and the
`bool` result. `array_element_offsets.back()` is modelled as `getLastD 0`
(every call site passes a non-empty vector). -/
def Node.recordAccess (g : Int) (t : AccessType) (offsetBytes : Int)
    (count : Nat) (arrayElementOffsets : List Int) : Node → Node × Bool
  | n@(.mk nm tn ob sb m tk go ac iu cs) =>
    if !Overlap offsetBytes (offsetBytes + g) n.globalOffsetBytes
        (n.globalOffsetBytes + arrayElementOffsets.getLastD 0 +
          n.fullSizeBytes) then
      (n, false)
    else
      let counters := arrayElementOffsets.foldl
        (fun acc θ =>
          if Overlap offsetBytes (offsetBytes + g) (n.globalOffsetBytes + θ)
              (n.globalOffsetBytes + θ + n.fullSizeBytes) then
            incrementAccessCount t count acc
          else acc)
        ac
      let newOffsets := (List.range n.multiplicity.toNat).flatMap
        (fun i => arrayElementOffsets.map (fun θ => θ + (i : Int) * n.sizeBytes))
      let results := recordAccessChildren g t offsetBytes count newOffsets cs
      let overlapInChildren := cs.isEmpty || results.any (·.2)
      (Node.mk nm tn ob sb m tk go counters iu (results.map (·.1)),
        overlapInChildren)

/-- The child loop of `Node::RecordAccess`: recurse into every child with
the expanded array-element offsets, collecting updated nodes and results. -/
def recordAccessChildren (g : Int) (t : AccessType) (offsetBytes : Int)
    (count : Nat) (offsets : List Int) : List Node → List (Node × Bool)
  | [] => []
  | c :: rest =>
      Node.recordAccess g t offsetBytes count offsets c ::
        recordAccessChildren g t offsetBytes count offsets rest

end

/-- `TypeTree::RecordAccess<AccessGranularity, AccessType>`, acting on the
tree's root node (the source dereferences `root_`; callers guarantee
non-null). Offsets beyond the root full size wrap via `%`
(C++ truncating remainder, `Int.tmod`). -/
def recordAccessRoot (g : Int) (t : AccessType) (root : Node)
    (offsetBytes : Int) (count : Nat) : Node × Bool :=
  let o := if offsetBytes > root.fullSizeBytes then
      Int.tmod offsetBytes root.fullSizeBytes
    else offsetBytes
  Node.recordAccess g t o count [0] root

/-- `TypeTree::CollapseHistogram<AccessGranularity>`: the collapsed
histogram has `1 + (collapsed_size - 1) / g` buckets; bucket `j` receives
`histogram[i * new_histogram_size + j]` for every
`i < histogram_size / new_histogram_size`. All accesses are in bounds;
`getD` supplies a default only out of bounds. -/
def collapseHistogram (g : Nat) (histogram : List Nat)
    (collapsedSize : Int) : List Nat :=
  let histogramSize := histogram.length
  let newHistogramSize := (1 + Int.tdiv (collapsedSize - 1) (g : Int)).toNat
  let collapseNum := histogramSize / newHistogramSize
  (List.range newHistogramSize).map
    (fun j =>
      ((List.range collapseNum).map
        (fun i => histogram.getD (i * newHistogramSize + j) 0)).sum)

/-- The `absl::Status` codes produced by the embedded operations. -/
inductive StatusCode where
  | ok
  | invalidArgument
  | notFound
  | failedPrecondition
  | unimplemented
  | internal
deriving Repr, DecidableEq

/-- The recording loop of `TypeTree::RecordAccessHistogram`:
`root_->RecordAccess(i * AccessGranularity, histogram[i])` for each index. -/
def applyHistogramAux (g : Int) (t : AccessType) (hist : List Nat) (i : Nat)
    (root : Node) : Node :=
  match hist with
  | [] => root
  | c :: rest =>
      applyHistogramAux g t rest (i + 1)
        (recordAccessRoot g t root ((i : Int) * g) c).1

/-- `TypeTree::RecordAccessHistogram<AccessGranularity, AccessType>`,
acting on the tree's root node: reject empty histograms and granularities
other than 8; keep the histogram when its byte size lies strictly between
the root full size and twice the root full size; collapse it when it is
larger still; record every bucket; finally report `FailedPrecondition`
when the original size is not a multiple of the (possibly collapsed)
size. -/
def recordAccessHistogramRoot (g : Int) (t : AccessType) (root : Node)
    (histogram : List Nat) : Node × StatusCode :=
  let oldHistogramSize := histogram.length
  let histogramSizeInBytes : Int := (histogram.length : Int) * g
  if histogramSizeInBytes == 0 then (root, .invalidArgument)
  else if g != 8 then (root, .unimplemented)
  else
    let hist :=
      if histogramSizeInBytes > root.fullSizeBytes &&
          histogramSizeInBytes < 2 * root.fullSizeBytes then
        histogram
      else if histogramSizeInBytes > root.fullSizeBytes then
        collapseHistogram 8 histogram root.fullSizeBytes
      else histogram
    let root' := applyHistogramAux g t hist 0 root
    if oldHistogramSize % hist.length != 0 then (root', .failedPrecondition)
    else (root', .ok)

/-- The condition `parent != nullptr && parent->IsUnion()` of `Verify`. -/
def parentIsUnion : Option Node → Bool
  | some p => p.isUnion
  | none => false

/-- The checks `Verify` performs on a direct child of a union parent:
offset 0 (or padding), and access-count agreement with the parent (single
child) or with an equal-sized older sibling. `parent` is non-null
whenever this branch runs; the `none` default is unreachable. -/
def unionChildChecks (parent olderSibling : Option Node) (n : Node) : Bool :=
  (n.offsetBytes == 0 || n.isPadding) &&
    (match olderSibling with
      | none =>
          (match parent with
            | some p =>
                !(p.numChildren == 1 &&
                  n.totalAccessCount != p.totalAccessCount)
            | none => true)
      | some s =>
          !(n.fullSizeBytes == s.fullSizeBytes &&
            n.totalAccessCount != s.totalAccessCount))

mutual

/-- `TypeTree::Node::Verify(parent, older_sibling, verify_verbose)` as a
pure predicate: `true` exactly when the source sets no `res = false`.
Log-only paths (the root-offset message, the unresolved-type message) do
not affect the result, as in the source. -/
def Node.verify (parent olderSibling : Option Node) : Node → Bool
  | n@(.mk _ _ _ _ _ _ _ _ _ cs) =>
    if parentIsUnion parent then
      -- Children of a union: offset-0 check and access-count agreement.
      unionChildChecks parent olderSibling n
    else if n.isUnion then
      -- A union node: children must sit at offset 0; each child is
      -- verified with the *same* older-sibling argument, as in the source.
      cs.all (fun c => c.offsetBytes == 0 || c.isPadding) &&
        verifyUnionChildren n olderSibling cs
    else
      (if cs.isEmpty then true
        else
          decide ((cs.map Node.totalAccessCount).sum ≥ n.totalAccessCount) &&
            ((cs.map (fun c => c.sizeBits * c.multiplicity)).sum ==
              n.sizeBits)) &&
      (n.isPadding || n.typeName != "") &&
      (match parent with
        | some p => n.globalOffset == p.globalOffset + n.offsetBits
        | none => true) &&
      (match olderSibling with
        | some s =>
            decide (n.globalOffset > s.globalOffset) &&
              (s.sizeBits + s.offsetBits == n.offsetBits) &&
              (s.globalOffset + s.sizeBits == n.globalOffset)
        | none => n.offsetBits == 0) &&
      decide (n.sizeBits > 0) &&
      verifyChildrenChain n none cs

/-- Recursion of `Verify` into the children of a union node: every child
receives the union's *incoming* older-sibling argument. -/
def verifyUnionChildren (p : Node) (sib : Option Node) : List Node → Bool
  | [] => true
  | c :: rest =>
      Node.verify (some p) sib c && verifyUnionChildren p sib rest

/-- Recursion of `Verify` into the children of a non-union node: the
older sibling starts at null and is threaded through the child list. -/
def verifyChildrenChain (p : Node) (sib : Option Node) : List Node → Bool
  | [] => true
  | c :: rest =>
      Node.verify (some p) sib c && verifyChildrenChain p (some c) rest

end

/-- `TypeTree::Verify`: `root_->Verify(nullptr, nullptr, verify_verbose)`. -/
def verifyTree (root : Node) : Bool :=
  root.verify none none

mutual

/-- `TypeTree::Node::MergeCounts(other)`: reject when names differ, child
counts differ, or the type names differ (type names are compared up to a
`[` suffix when `this`'s type name contains one); otherwise add `other`'s
counters into this node and merge the children pairwise. -/
def Node.mergeCounts : Node → Node → Except Unit Node
  | n@(.mk nm tn ob sb m tk go ac iu cs), other =>
    let hasSameType := n.typeName == other.typeName ||
      (match n.typeName.toList.findIdx? (· == '[') with
        | none => false
        | some pos =>
            n.typeName.toList.take pos == other.typeName.toList.take pos)
    if n.name != other.name || n.numChildren != other.numChildren ||
        !hasSameType then
      .error ()
    else
      match mergeCountsChildren cs other.children with
      | .error e => .error e
      | .ok cs' =>
          .ok (Node.mk nm tn ob sb m tk go
            ⟨ac.total + other.accessCounters.total,
              ac.access + other.accessCounters.access,
              ac.llcMiss + other.accessCounters.llcMiss⟩ iu cs')

/-- The child loop of `Node::MergeCounts` (child counts already checked
equal along the non-error path). -/
def mergeCountsChildren : List Node → List Node → Except Unit (List Node)
  | [], _ => .ok []
  | _ :: _, [] => .error ()
  | c :: rest, oc :: orest =>
      match Node.mergeCounts c oc with
      | .error e => .error e
      | .ok c' =>
          match mergeCountsChildren rest orest with
          | .error e => .error e
          | .ok rest' => .ok (c' :: rest')

end

mutual

/-- `TypeTree::Node::FindNodeWithTypeName`: search the children subtrees
only — the node itself is never compared — depth-first, each child
compared before its own subtree is searched. `none` models the source's
`NotFound` status. -/
def Node.findNodeWithTypeName (typeName : String) : Node → Option Node
  | .mk _ _ _ _ _ _ _ _ _ cs => findInChildren typeName cs

/-- The child loop of `Node::FindNodeWithTypeName`. -/
def findInChildren (typeName : String) : List Node → Option Node
  | [] => none
  | c :: rest =>
      if c.typeName == typeName then some c
      else
        match Node.findNodeWithTypeName typeName c with
        | some r => some r
        | none => findInChildren typeName rest

end

/-- `TypeTree::Node::CopyNode`: copy of the scalar fields (including the
access counters) without the children. -/
def Node.copyNode : Node → Node
  | .mk nm tn ob sb m tk go ac iu _ => .mk nm tn ob sb m tk go ac iu []

mutual

/-- The copy performed by `TypeTree::Node::MergeTreeIntoThis(other,
starting_offset)`: for every child of `other`, `CopyNode` it and recurse,
so the appended forest is a structural copy of `other`'s children
(`starting_offset` is passed through unused in the source). -/
def copyChildrenForMerge : List Node → List Node
  | [] => []
  | (.mk nm tn ob sb m tk go ac iu cs) :: rest =>
      Node.mk nm tn ob sb m tk go ac iu (copyChildrenForMerge cs) ::
        copyChildrenForMerge rest

end

/-- `Node::MergeTreeIntoThis(other, starting_offset)` applied to the merge
node: append a copy of every child subtree of `other`. -/
def Node.mergeTreeIntoThisNode (n other : Node) : Node :=
  match n with
  | .mk nm tn ob sb m tk go ac iu cs =>
      .mk nm tn ob sb m tk go ac iu (cs ++ copyChildrenForMerge other.children)

mutual

/-- `TypeTree::Node::BuildSizesBottomUp`: recurse into the children
first; then, when this node's full size is zero, set its size to the sum
of the children's full sizes. -/
def Node.buildSizesBottomUp : Node → Node
  | .mk nm tn ob sb m tk go ac iu cs =>
      let cs' := buildSizesList cs
      if sb * m == 0 then
        Node.mk nm tn ob ((cs'.map Node.fullSizeBits).sum) m tk go ac iu cs'
      else
        Node.mk nm tn ob sb m tk go ac iu cs'

/-- The child loop of `Node::BuildSizesBottomUp`. -/
def buildSizesList : List Node → List Node
  | [] => []
  | c :: rest => Node.buildSizesBottomUp c :: buildSizesList rest

end

mutual

/-- `TypeTree::Node::InferOffsetsFromSizes`: walking the children in
order, assign each child the running offset (and the parent's global
offset plus that offset), advance the running offset by the child's full
size, and recurse. -/
def Node.inferOffsetsFromSizes : Node → Node
  | .mk nm tn ob sb m tk go ac iu cs =>
      Node.mk nm tn ob sb m tk go ac iu (inferOffsetsList go 0 cs)

/-- The child loop of `Node::InferOffsetsFromSizes`, carrying the parent's
global offset and the running `curr_offset`. -/
def inferOffsetsList (parentGlobal currOffset : Int) :
    List Node → List Node
  | [] => []
  | (.mk nm tn _ sb m tk _ ac iu cs) :: rest =>
      Node.mk nm tn currOffset sb m tk (parentGlobal + currOffset) ac iu
          (inferOffsetsList (parentGlobal + currOffset) 0 cs) ::
        inferOffsetsList parentGlobal (currOffset + sb * m) rest

end

/-- `TypeTree`: root node (`unique_ptr`, possibly null), root type name,
container provenance. -/
structure TypeTree where
  root : Option Node
  rootTypeName : String
  fromContainer : Bool
  containerName : String

/-- `TypeTree::Empty()`. -/
def TypeTree.isEmpty (t : TypeTree) : Bool := t.root.isNone

/-- `TypeTree::Name()`. -/
def TypeTree.name (t : TypeTree) : String := t.rootTypeName

/-- `TypeTree::FindNodeWithTypeName` (`root_->FindNodeWithTypeName`); the
call sites guard with `Empty()`, so a null root is unreachable there. -/
def TypeTree.findNodeWithTypeName (t : TypeTree) (typeName : String) :
    Option Node :=
  match t.root with
  | some r => r.findNodeWithTypeName typeName
  | none => none

mutual

/-- Functional rendering of the in-place graft of
`TypeTree::MergeTreeIntoThis`: rebuild the tree with `f` applied to the
first node that `FindNodeWithTypeName` would return (same traversal
order). `none` when no node matches. -/
def Node.updateFirstMatch (typeName : String) (f : Node → Node) :
    Node → Option Node
  | .mk nm tn ob sb m tk go ac iu cs =>
      match updateFirstMatchList typeName f cs with
      | some cs' => some (.mk nm tn ob sb m tk go ac iu cs')
      | none => none

/-- The list part of `Node.updateFirstMatch`. -/
def updateFirstMatchList (typeName : String) (f : Node → Node) :
    List Node → Option (List Node)
  | [] => none
  | c :: rest =>
      if c.typeName == typeName then some (f c :: rest)
      else
        match Node.updateFirstMatch typeName f c with
        | some c' => some (c' :: rest)
        | none =>
            match updateFirstMatchList typeName f rest with
            | some rest' => some (c :: rest')
            | none => none

end

/-- `TypeTree::MergeTreeIntoThis(other)`. Returns the status and the
(possibly updated) tree; every error path returns before mutating, so the
tree comes back unchanged there. On success the element tree's children
are grafted under the first node whose type name equals `other->Name()`,
then sizes are rebuilt bottom-up and offsets re-inferred from sizes (with
the root's global offset reset to 0, as `TypeTree::InferOffsetsFromSizes`
does). The source never checks `other` for an empty root (it would
dereference null); that unreachable-at-call-sites path is modelled as
`invalidArgument`. -/
def TypeTree.mergeTreeIntoThis (t : TypeTree) (other : Option TypeTree) :
    StatusCode × TypeTree :=
  if t.isEmpty then (.invalidArgument, t)
  else
    match other with
    | none => (.invalidArgument, t)
    | some o =>
        match t.findNodeWithTypeName o.name with
        | none => (.notFound, t)
        | some mergeNode =>
            if mergeNode.numChildren != 0 then (.invalidArgument, t)
            else
              match t.root, o.root with
              | some r, some oroot =>
                  let grafted := (r.updateFirstMatch o.name
                    (fun n => n.mergeTreeIntoThisNode oroot)).getD r
                  let resized := grafted.buildSizesBottomUp
                  let rezeroed :=
                    match resized with
                    | .mk nm tn ob sb m tk _ ac iu cs =>
                        Node.mk nm tn ob sb m tk 0 ac iu cs
                  (.ok, { t with root := some rezeroed.inferOffsetsFromSizes })
              | _, _ => (.invalidArgument, t)

/-- `DwarfMetadataFetcher::Frame`. -/
structure Frame where
  functionName : String
  lineOffset : Nat
  column : Nat
deriving Repr, DecidableEq

/-- `TypeTreeStore::CallStack`. -/
abbrev CallStack := List Frame

/-- The map `callstack_to_type_tree_` of `TypeTreeStore`, modelled
functionally. -/
def TypeTreeStore := CallStack → Option TypeTree

/-- `TypeTree::MergeCounts(other)`: `root_->MergeCounts(other->Root())`.
Null roots would be dereferenced by the source; modelled as an error. -/
def TypeTree.mergeCounts (t other : TypeTree) : Except Unit TypeTree :=
  match t.root, other.root with
  | some r, some orr =>
      match r.mergeCounts orr with
      | .ok r' => .ok { t with root := some r' }
      | .error e => .error e
  | _, _ => .error ()

/-- `TypeTreeStore::Insert(callstack, type_tree)`: reject a null tree;
for a fresh key store the tree; for an existing key require the same root
type name, merge the stored counters into the *new* tree and store it.
Every error path leaves the map unchanged (the source returns before
assigning). -/
def storeInsert (store : TypeTreeStore) (cs : CallStack)
    (tree : Option TypeTree) : StatusCode × TypeTreeStore :=
  match tree with
  | none => (.invalidArgument, store)
  | some t =>
      match store cs with
      | none => (.ok, fun k => if k = cs then some t else store k)
      | some curr =>
          if curr.name != t.name then (.invalidArgument, store)
          else
            match t.mergeCounts curr with
            | .error _ => (.invalidArgument, store)
            | .ok merged =>
                (.ok, fun k => if k = cs then some merged else store k)

/-- `DwarfMetadataFetcher::FieldData` (the members `GetField` returns). -/
structure FieldData where
  name : String
  offset : Int
  typeName : String
deriving Repr, DecidableEq

instance : Inhabited FieldData := ⟨⟨"", 0, ""⟩⟩

/-- The members of `DwarfMetadataFetcher::TypeData` that `GetField`
consults: byte size, the field vector, and
`offset_idx : std::map<int64_t, flat_hash_set<size_t>>`, modelled as an
association list sorted by strictly increasing key (the `std::map`
iteration order); each value is the set of field indices at that offset
(a one-element list is the only case whose element is read). -/
structure TypeData where
  size : Int
  fields : List FieldData
  offsetIdx : List (Int × List Nat)
deriving Repr, DecidableEq

/-- The error cases of `DwarfMetadataFetcher::GetField`, in source order:
`InvalidArgument("Invalid offset value")`,
`NotFound("No field in this type")`, `NotFound("No such field")` (the
upper-bound iterator is `begin()`), and
`NotFound("Multiple fields with offset")` for an ambiguous entry. -/
inductive GetFieldError where
  | invalidOffset
  | noFieldInType
  | noSuchField
  | multipleFields
deriving Repr, DecidableEq

/-- `offset_idx.upper_bound(offset)` followed by `--it` on the sorted
map: the last entry with key ≤ `offset`, or `none` when the upper bound
is already `begin()`. -/
def lastEntryLE (offset : Int) (idx : List (Int × List Nat)) :
    Option (Int × List Nat) :=
  (idx.filter (fun e => decide (e.1 ≤ offset))).getLast?

/-- `DwarfMetadataFetcher::GetField(type_name, offset)` after the
`GetType` lookup has succeeded (the claim quantifies over types with a
resolvable name): offset range check, empty-fields/empty-index check,
largest index entry ≤ offset, ambiguity check, field lookup
(`fields[*(it->second.begin())]`, in bounds at real call sites). -/
def getField (td : TypeData) (offset : Int) : Except GetFieldError FieldData :=
  if offset < 0 ∨ offset ≥ td.size then .error .invalidOffset
  else if td.fields.isEmpty || td.offsetIdx.isEmpty then .error .noFieldInType
  else
    match lastEntryLE offset td.offsetIdx with
    | none => .error .noSuchField
    | some e =>
        if e.2.length > 1 then .error .multipleFields
        else .ok (td.fields.getD (e.2.headD 0) default)

/-- `RoundUpTo(number, multiple)` from
`type_tree_container_blueprints.h`. -/
def roundUpTo (number multiple : Int) : Int :=
  Int.tdiv (number + multiple - 1) multiple * multiple

/-- The capacity computed by
`TypeTreeContainerBlueprints::GetSwissMapTemplate`:
`(request_size - (kWidth - 1) * 8 - size_t_size) / (slot_type_size + 8)`,
every quantity in bits except that `kWidth` counts control bytes. -/
def swissMapCapacity (requestSize slotTypeSize sizeTSize kWidth : Int) : Int :=
  Int.tdiv (requestSize - (kWidth - 1) * 8 - sizeTSize) (slotTypeSize + 8)

/-- A zeroed counter record, as every template node starts with. -/
def zeroCounters : AccessCounters := ⟨0, 0, 0⟩

/-- `TypeTreeContainerBlueprints::GetSwissMapTemplate(slot_type_name,
slot_type_size, Alignment, size_t_size, kWidth, request_size,
has_hash_table_z, hashtablez_handle_size)` rendered as the node tree the
parsed proto template describes. `has_hash_table_z` is forced to `false`
at function entry in the source, so the `infoz_` field is never emitted,
and all template offsets are zero (offsets are inferred later). The
trailing element of each array field carries the multiplicity. -/
def getSwissMapTemplate (slotTypeName : String)
    (slotTypeSize Alignment sizeTSize kWidth requestSize : Int) : Node :=
  let capacity := swissMapCapacity requestSize slotTypeSize sizeTSize kWidth
  let metadataSize := sizeTSize + (capacity + kWidth) * 8
  let metadataPlusPadding := roundUpTo metadataSize (Alignment * 8)
  let paddingSize := metadataPlusPadding - metadataSize
  let rootName :=
    "absl::container_internal::raw_hash_set::BackingArray<" ++
      slotTypeName ++ ">"
  Node.mk rootName rootName 0 0 1 .recordType 0 zeroCounters false
    ([Node.mk "growth_left" "size_t" 0 sizeTSize 1 .builtinType 0
        zeroCounters false [],
      Node.mk "ctrl" ("ctrl_t[" ++ toString capacity ++ "]") 0 0 1
        .arrayType 0 zeroCounters false
        [Node.mk "[_]" "ctrl_t" 0 8 capacity .builtinType 0
          zeroCounters false []],
      Node.mk "sentinel" "ctrl_t" 0 8 1 .arrayType 0 zeroCounters false [],
      Node.mk "clones" ("ctrl_t[" ++ toString (kWidth - 1) ++ "]") 0 0 1
        .arrayType 0 zeroCounters false
        [Node.mk "[_]" "ctrl_t" 0 8 (kWidth - 1) .builtinType 0
          zeroCounters false []]] ++
      (if paddingSize > 0 then
        [Node.mk "" "" 0 paddingSize 1 .paddingType 0 zeroCounters false []]
      else []) ++
      [Node.mk "slots" (slotTypeName ++ "[" ++ toString capacity ++ "]") 0 0
        1 .arrayType 0 zeroCounters false
        [Node.mk "[_]" slotTypeName 0 slotTypeSize capacity .recordType 0
          zeroCounters false []]])

/-- `WrapType(outer_type, inner_type)` from `type_resolver.cc`. -/
def wrapType (outerType innerType : String) : String :=
  outerType ++ "<" ++ innerType ++
    (if innerType.endsWith ">" then " >" else ">")

/-- The SwissMap arm of
`DwarfTypeResolver::ResolveTypeFromResolutionStrategy` (non-local mode)
from the point where the element type tree has been resolved: build the
`BackingArray` template with the hard-coded `kWidth = 16` and
`size_t_size = 64`, materialize the outer tree, merge the element tree
into it, and return `Internal` — returning no tree — when
`request_size != outer_tree->Root()->GetFullSizeBytes()`. A failing merge
propagates its status with no tree, as `RETURN_IF_ERROR` does. -/
def resolveSwissMapBackingArray (elementTree : TypeTree)
    (Alignment requestSize : Int) : StatusCode × Option TypeTree :=
  match elementTree.root with
  | none => (.invalidArgument, none)
  | some er =>
      let template := getSwissMapTemplate elementTree.name er.fullSizeBits
        Alignment 64 16 (requestSize * 8)
      let outer : TypeTree :=
        ⟨some template,
          wrapType "absl::container_internal::raw_hash_set" elementTree.name,
          true, "absl::container_internal::raw_hash_set"⟩
      match outer.mergeTreeIntoThis (some elementTree) with
      | (.ok, merged) =>
          match merged.root with
          | some mr =>
              if requestSize ≠ mr.fullSizeBytes then (.internal, none)
              else (.ok, some merged)
          | none => (.internal, none)
      | (st, _) => (st, none)

/-! ### Specification-side definitions

These are phrased from the wording of the claims, to be compared with the
source-side definitions above. -/

/-- Proper intersection of the half-open intervals `[a1, a2)` and
`[b1, b2)`: the intersection `[max a1 b1, min a2 b2)` is non-empty. -/
def properIntersect (a1 a2 b1 b2 : Int) : Bool :=
  decide (max a1 b1 < min a2 b2)

/-- The collapse formula exactly as claim C2 states it: `c` collapsed
buckets, collapsed bucket `i` summing the original buckets
`i, i+k, i+2k, …` with stride `k = N / c`. -/
def collapseSpecClaim (histogram : List Nat) (c : Nat) : List Nat :=
  let k := histogram.length / c
  (List.range c).map
    (fun i =>
      ((List.range (histogram.length / k)).map
        (fun j => histogram.getD (i + j * k) 0)).sum)

/-- The collapse formula as amended: `c = ⌈full_size_bytes / 8⌉` collapsed
buckets; collapsed bucket `i` sums the original buckets
`i, i+c, i+2c, …`, taking `N / c` of them — the stride is the collapsed
size, not `N / c`. -/
def collapseSpecAmended (histogram : List Nat) (fullSizeBytes : Int) :
    List Nat :=
  let c := ((fullSizeBytes + 8 - 1) / 8).toNat
  (List.range c).map
    (fun i =>
      ((List.range (histogram.length / c)).map
        (fun j => histogram.getD (i + j * c) 0)).sum)

mutual

/-- A copy of a tree with every node's counters exactly doubled
(claim C7's expected post-state after inserting the same tree twice). -/
def doubleNode : Node → Node
  | .mk nm tn ob sb m tk go ac iu cs =>
      .mk nm tn ob sb m tk go
        ⟨ac.total + ac.total, ac.access + ac.access,
          ac.llcMiss + ac.llcMiss⟩ iu (doubleChildren cs)

/-- `doubleNode` on a forest. -/
def doubleChildren : List Node → List Node
  | [] => []
  | c :: rest => doubleNode c :: doubleChildren rest

end

mutual

/-- No node of the tree is a union. -/
def nodeNoUnions : Node → Bool
  | .mk _ _ _ _ _ _ _ _ iu cs => !iu && listNoUnions cs

/-- `nodeNoUnions` on a forest. -/
def listNoUnions : List Node → Bool
  | [] => true
  | c :: rest => nodeNoUnions c && listNoUnions rest

end

/-- The sibling chain the code actually enforces: the first child sits at
offset 0 and each later child's offset is the previous child's offset
plus the previous child's size in bits (no multiplicity factor). -/
def siblingChainBySize : Option Node → List Node → Bool
  | _, [] => true
  | none, c :: rest =>
      (c.offsetBits == 0) && siblingChainBySize (some c) rest
  | some s, c :: rest =>
      (c.offsetBits == s.offsetBits + s.sizeBits) &&
        siblingChainBySize (some c) rest

/-- The sibling chain exactly as claim C4 states it: each later child's
offset is the previous child's offset plus the previous child's
full size (`size * multiplicity`). -/
def siblingChainByFullSize : Option Node → List Node → Bool
  | _, [] => true
  | none, c :: rest =>
      (c.offsetBits == 0) && siblingChainByFullSize (some c) rest
  | some s, c :: rest =>
      (c.offsetBits == s.offsetBits + s.fullSizeBits) &&
        siblingChainByFullSize (some c) rest

/-- The sum condition of claim C4: when a node has children, their full
sizes sum to the parent's size. -/
def childrenSumOk (n : Node) : Bool :=
  n.children.isEmpty || ((n.children.map Node.fullSizeBits).sum == n.sizeBits)

mutual

/-- The layout invariant (amended claim C4) at every node of a tree. -/
def layoutOk : Node → Bool
  | n@(.mk _ _ _ _ _ _ _ _ _ cs) =>
      (siblingChainBySize none cs && childrenSumOk n) && layoutOkList cs

/-- `layoutOk` on a forest. -/
def layoutOkList : List Node → Bool
  | [] => true
  | c :: rest => layoutOk c && layoutOkList rest

end

mutual

/-- All nodes of a subtree: the node itself and, recursively, the nodes of
its children's subtrees. -/
def Node.subtreeNodes : Node → List Node
  | n@(.mk _ _ _ _ _ _ _ _ _ cs) => n :: subtreeNodesList cs

/-- `Node.subtreeNodes` on a forest. -/
def subtreeNodesList : List Node → List Node
  | [] => []
  | c :: rest => Node.subtreeNodes c ++ subtreeNodesList rest

end

/-- The proper descendants of a node: every node of a child's subtree
(the node itself excluded). -/
def Node.properDescendants (n : Node) : List Node :=
  subtreeNodesList n.children

/-! ### Concrete objects used by counterexamples and witnesses -/

/-- An 8-byte builtin leaf with zeroed counters. -/
def exLeaf8 : Node := .mk "x" "long" 0 64 1 .builtinType 0 zeroCounters false []

/-- A 16-byte record with two 8-byte children, zeroed counters. -/
def exRec16 : Node :=
  .mk "S" "S" 0 128 1 .recordType 0 zeroCounters false
    [.mk "a" "long" 0 64 1 .builtinType 0 zeroCounters false [],
     .mk "b" "long" 64 64 1 .builtinType 64 zeroCounters false []]

/-- Counterexample tree for C4: first child has size 8 bits but
multiplicity 2 (full size 16 bits); the second child sits at offset 8 =
`offset + size`, not at `offset + full_size = 16`; the full sizes sum to
the parent's 24 bits. -/
def exMultTree : Node :=
  .mk "P" "P" 0 24 1 .recordType 0 zeroCounters false
    [.mk "a" "A" 0 8 2 .builtinType 0 zeroCounters false [],
     .mk "b" "B" 8 8 1 .builtinType 8 zeroCounters false []]

/-- A small valid two-children tree used by the C4 witness. -/
def exPlainTree : Node :=
  .mk "Q" "Q" 0 128 1 .recordType 0 zeroCounters false
    [.mk "a" "long" 0 64 1 .builtinType 0 zeroCounters false [],
     .mk "b" "long" 64 64 1 .builtinType 64 zeroCounters false []]

/-- An element type tree (a 1-byte builtin root) for the SwissMap
resolution witness: with `request_size = 72` and alignment 8 the
synthesized backing array totals exactly 72 bytes. -/
def exElemTree : TypeTree :=
  ⟨some (.mk "E" "E" 0 8 1 .builtinType 0 zeroCounters false []), "E",
    false, ""⟩

/-- A `TypeData` with two fields at offsets 0 and 8 (C6 witness). -/
def exTypeData : TypeData :=
  ⟨16, [⟨"x", 0, "long"⟩, ⟨"y", 8, "long"⟩], [(0, [0]), (8, [1])]⟩

/-- A `TypeData` whose offset-0 entry is ambiguous (two fields). -/
def exTypeDataAmbiguous : TypeData :=
  ⟨16, [⟨"x", 0, "long"⟩, ⟨"y", 0, "ulong"⟩], [(0, [0, 1])]⟩

/-- A tree root with non-zero counters (C7/C8 witnesses). -/
def exCountedRoot : Node :=
  .mk "S" "S" 0 128 1 .recordType 0 ⟨3, 2, 1⟩ false
    [.mk "a" "long" 0 64 1 .builtinType 0 ⟨5, 5, 0⟩ false [],
     .mk "b" "long" 64 64 1 .builtinType 64 ⟨7, 0, 7⟩ false []]

/-- A tree with non-zero counters (C7/C8 witnesses). -/
def exCountedTree : TypeTree := ⟨some exCountedRoot, "S", false, ""⟩

/-- A tree with a different root type name, same call-stack key (C8). -/
def exOtherNamedTree : TypeTree :=
  ⟨some (.mk "T" "T" 0 64 1 .recordType 0 zeroCounters false []), "T",
    false, ""⟩

/-- Outer tree for the C10 counterexample: root `A` with one leaf child
`B`; no node has type name `C`. -/
def exOuterTree : TypeTree :=
  ⟨some (.mk "A" "A" 0 8 1 .recordType 0 zeroCounters false
    [.mk "b" "B" 0 8 1 .builtinType 0 zeroCounters false []]), "A",
    false, ""⟩

/-- Element tree named `C` for the C10 counterexample. -/
def exUnmatchedTree : TypeTree :=
  ⟨some (.mk "C" "C" 0 8 1 .recordType 0 zeroCounters false []), "C",
    false, ""⟩

/-- A `B`-typed node that already has a child (C10 witness). -/
def exBusyNode : Node :=
  .mk "b" "B" 0 16 1 .recordType 0 zeroCounters false
    [.mk "c" "char" 0 8 1 .builtinType 0 zeroCounters false []]

/-- Root of the outer tree whose `B`-node already has a child. -/
def exBusyRoot : Node :=
  .mk "A" "A" 0 16 1 .recordType 0 zeroCounters false [exBusyNode]

/-- Outer tree whose `B`-node already has a child (C10 witness). -/
def exOuterTreeBusy : TypeTree := ⟨some exBusyRoot, "A", false, ""⟩

/-- Element tree named `B` (C10 witness). -/
def exBTree : TypeTree :=
  ⟨some (.mk "B" "B" 0 16 1 .recordType 0 zeroCounters false []), "B",
    false, ""⟩

/-! ### Helper lemmas -/

theorem overlap_iff {a1 a2 b1 b2 : Int} (ha : a1 < a2) :
    Overlap a1 a2 b1 b2 = true ↔ a1 < b2 ∧ b1 < a2 ∧ b1 < b2 := by
  unfold Overlap
  rw [decide_eq_true_iff]
  omega

theorem overlap_eq_properIntersect {a1 a2 b1 b2 : Int} (ha : a1 < a2) :
    Overlap a1 a2 b1 b2 = properIntersect a1 a2 b1 b2 := by
  unfold Overlap properIntersect
  rw [decide_eq_decide]
  omega

/-- In a list sorted by strictly increasing key, the last element has the
largest key. -/
theorem getLast_key_max :
    ∀ (l : List (Int × List Nat)),
      l.Pairwise (fun a b => a.1 < b.1) →
      ∀ e, l.getLast? = some e → ∀ x ∈ l, x.1 ≤ e.1 := by
  intro l
  induction l with
  | nil => simp
  | cons a rest ih =>
    intro hp e hlast x hx
    cases rest with
    | nil =>
      simp at hlast hx
      subst hx
      simp [hlast]
    | cons b rest' =>
      rw [List.getLast?_cons_cons] at hlast
      have hpt := List.Pairwise.of_cons hp
      rcases List.mem_cons.mp hx with hxa | hxr
      · subst hxa
        have he : e ∈ b :: rest' := List.mem_of_mem_getLast? hlast
        have := (List.pairwise_cons.mp hp).1 e he
        omega
      · exact ih hpt e hlast x hxr

/-- `lastEntryLE` is the largest entry with key ≤ offset (on the sorted
`std::map`). -/
theorem lastEntryLE_spec (offset : Int) (idx : List (Int × List Nat))
    (hp : idx.Pairwise (fun a b => a.1 < b.1)) (e : Int × List Nat)
    (h : lastEntryLE offset idx = some e) :
    e ∈ idx ∧ e.1 ≤ offset ∧ ∀ x ∈ idx, x.1 ≤ offset → x.1 ≤ e.1 := by
  unfold lastEntryLE at h
  have hmem := List.mem_of_mem_getLast? h
  have hmf := List.mem_filter.mp hmem
  refine ⟨hmf.1, by simpa using hmf.2, ?_⟩
  intro x hx hxle
  have hxf : x ∈ idx.filter (fun p => decide (p.1 ≤ offset)) :=
    List.mem_filter.mpr ⟨hx, by simpa using hxle⟩
  exact getLast_key_max _ (hp.filter _) e h x hxf

/-! ### C3: wrap-around of out-of-range accesses -/

/-- C3 counterexample: the claim states wrap-around for every
`o ≥ root.full_size`, but the source only wraps for `o > root.full_size`.
On an 8-byte tree, the access at offset 8 (`= full_size`, so the claim
demands a recording at `8 mod 8 = 0`) records nothing, while recording at
offset 0 increments the root counter. -/
theorem recordAccess_wraparound_counterexample :
    exLeaf8.fullSizeBytes = 8 ∧
    Int.tmod 8 exLeaf8.fullSizeBytes = 0 ∧
    (recordAccessRoot 8 .access exLeaf8 8 1).1.totalAccessCount = 0 ∧
    (recordAccessRoot 8 .access exLeaf8 0 1).1.totalAccessCount = 1 ∧
    recordAccessRoot 8 .access exLeaf8 8 1 ≠
      recordAccessRoot 8 .access exLeaf8 (Int.tmod 8 exLeaf8.fullSizeBytes) 1 := by
  refine ⟨rfl, by decide, by decide, by decide, ?_⟩
  intro h
  have := congrArg (fun p => p.1.totalAccessCount) h
  simp only [] at this
  exact absurd this (by decide)

/-- C3 amended: for every tree with positive root full size and every
recorded access offset `o`, if `o` is *strictly greater* than
`root.full_size` (in bytes) then `RecordAccess` records the access at
`o mod root.full_size` instead of `o`; an access at exactly
`o = root.full_size` is left unwrapped. -/
theorem recordAccess_wraparound_amended (t : AccessType) (root : Node)
    (o : Int) (c : Nat) (hpos : 0 < root.fullSizeBytes)
    (hgt : root.fullSizeBytes < o) :
    recordAccessRoot 8 t root o c =
      recordAccessRoot 8 t root (Int.tmod o root.fullSizeBytes) c := by
  unfold recordAccessRoot
  have hmod : Int.tmod o root.fullSizeBytes = o % root.fullSizeBytes :=
    Int.tmod_eq_emod (by omega) (by omega)
  have hlt : o % root.fullSizeBytes < root.fullSizeBytes :=
    Int.emod_lt_of_pos o hpos
  rw [if_pos (by omega), if_neg (by omega)]

/-- Witness for the amended C3 at a concrete input. -/
theorem recordAccess_wraparound_amended_witness :
    0 < exLeaf8.fullSizeBytes ∧ exLeaf8.fullSizeBytes < 17 ∧
    recordAccessRoot 8 .access exLeaf8 17 1 =
      recordAccessRoot 8 .access exLeaf8 (Int.tmod 17 exLeaf8.fullSizeBytes) 1 :=
  ⟨by decide, by decide,
    recordAccess_wraparound_amended .access exLeaf8 17 1 (by decide)
      (by decide)⟩

/-! ### C6: GetField contract -/

/-- C6: for a type with a resolvable name, `GetField(type_name, offset)`
fails for `offset < 0` or `offset ≥ size`; otherwise it locates the
largest offset-index entry ≤ offset (shown against the sorted `std::map`
order); when that entry maps to exactly one field it returns that field,
and when it maps to more than one field it returns the ambiguity error
(`NotFound("Multiple fields with offset …")`), not a field. -/
theorem getField_contract (td : TypeData) (offset : Int) :
    ((offset < 0 ∨ offset ≥ td.size) →
      getField td offset = .error .invalidOffset) ∧
    (td.offsetIdx.Pairwise (fun a b => a.1 < b.1) →
      ∀ e, lastEntryLE offset td.offsetIdx = some e →
        e ∈ td.offsetIdx ∧ e.1 ≤ offset ∧
          ∀ x ∈ td.offsetIdx, x.1 ≤ offset → x.1 ≤ e.1) ∧
    (¬(offset < 0 ∨ offset ≥ td.size) → td.fields.isEmpty = false →
      ∀ k i, lastEntryLE offset td.offsetIdx = some (k, [i]) →
        getField td offset = .ok (td.fields.getD i default)) ∧
    (¬(offset < 0 ∨ offset ≥ td.size) → td.fields.isEmpty = false →
      ∀ e, lastEntryLE offset td.offsetIdx = some e → 1 < e.2.length →
        getField td offset = .error .multipleFields) := by
  refine ⟨?_, ?_, ?_, ?_⟩
  · intro h
    unfold getField
    rw [if_pos h]
  · intro hp e he
    exact lastEntryLE_spec offset td.offsetIdx hp e he
  · intro hrange hfields k i he
    have hidx : td.offsetIdx ≠ [] := by
      intro hnil
      rw [hnil] at he
      simp [lastEntryLE] at he
    unfold getField
    rw [if_neg hrange, if_neg (by simp [hfields, hidx]), he]
    simp
  · intro hrange hfields e he hlen
    have hidx : td.offsetIdx ≠ [] := by
      intro hnil
      rw [hnil] at he
      simp [lastEntryLE] at he
    unfold getField
    rw [if_neg hrange, if_neg (by simp [hfields, hidx]), he]
    simp [hlen]

/-- Witness for C6 at concrete inputs: a unique entry returns its field,
an out-of-range offset fails, and an ambiguous entry reports the error. -/
theorem getField_contract_witness :
    getField exTypeData 9 = .ok (exTypeData.fields.getD 1 default) ∧
    getField exTypeData 16 = .error .invalidOffset ∧
    getField exTypeDataAmbiguous 3 = .error .multipleFields :=
  ⟨(getField_contract exTypeData 9).2.2.1 (by decide) rfl 8 1 rfl,
    (getField_contract exTypeData 16).1 (by decide),
    (getField_contract exTypeDataAmbiguous 3).2.2.2 (by decide) rfl
      (0, [0, 1]) rfl (by decide)⟩

/-! ### C8: root-type stability of the sample store -/

/-- C8: inserting, under an existing call stack, a tree whose root type
name differs from the stored tree's returns `InvalidArgument` and leaves
the store unchanged — the key still maps to the previously stored tree. -/
theorem storeInsert_root_type_stability (store : TypeTreeStore)
    (cs : CallStack) (t0 t : TypeTree) (hcur : store cs = some t0)
    (hne : t0.name ≠ t.name) :
    storeInsert store cs (some t) = (.invalidArgument, store) ∧
    (storeInsert store cs (some t)).2 cs = some t0 := by
  have h1 : storeInsert store cs (some t) = (.invalidArgument, store) := by
    unfold storeInsert
    rw [hcur]
    simp only [bne_iff_ne, ne_eq]
    rw [if_pos hne]
  exact ⟨h1, by rw [h1]; exact hcur⟩

/-- Witness for C8: a store holding `exCountedTree` under the empty call
stack rejects `exOtherNamedTree` and keeps the original tree. -/
theorem storeInsert_root_type_stability_witness :
    storeInsert (fun k => if k = ([] : CallStack) then some exCountedTree
        else none) [] (some exOtherNamedTree) =
      (.invalidArgument, fun k => if k = ([] : CallStack) then
        some exCountedTree else none) ∧
    (storeInsert (fun k => if k = ([] : CallStack) then some exCountedTree
        else none) [] (some exOtherNamedTree)).2 [] = some exCountedTree :=
  storeInsert_root_type_stability _ [] exCountedTree exOtherNamedTree
    (if_pos rfl) (by decide)

/-! ### C7: merge idempotence of the sample store -/

mutual

/-- Merging a node's counts with itself succeeds and doubles every
counter. -/
theorem mergeCounts_self : ∀ (n : Node),
    Node.mergeCounts n n = .ok (doubleNode n)
  | .mk nm tn ob sb m tk go ac iu cs => by
    rw [Node.mergeCounts]
    simp only [Node.name, Node.numChildren, Node.typeName, Node.children,
      Node.accessCounters]
    rw [mergeCountsChildren_self cs]
    simp [doubleNode]

/-- `mergeCounts_self` on a forest. -/
theorem mergeCountsChildren_self : ∀ (cs : List Node),
    mergeCountsChildren cs cs = .ok (doubleChildren cs)
  | [] => rfl
  | c :: rest => by
    rw [mergeCountsChildren]
    rw [mergeCounts_self c, mergeCountsChildren_self rest]
    rfl

end

/-- C7: inserting `(cs, t)` into a store that does not yet hold `cs`, and
then inserting the structurally identical tree with equal counters (the
same tree value) again, succeeds both times; afterwards the stored tree
is `t` with every node's `total`, `access` and `llc_miss` counters
exactly doubled. -/
theorem storeInsert_merge_idempotence (store : TypeTreeStore)
    (cs : CallStack) (t : TypeTree) (r : Node) (hroot : t.root = some r)
    (habsent : store cs = none) :
    (storeInsert store cs (some t)).1 = .ok ∧
    (storeInsert store cs (some t)).2 cs = some t ∧
    (storeInsert (storeInsert store cs (some t)).2 cs (some t)).1 = .ok ∧
    (storeInsert (storeInsert store cs (some t)).2 cs (some t)).2 cs =
      some { t with root := some (doubleNode r) } := by
  have h1 : storeInsert store cs (some t) =
      (.ok, fun k => if k = cs then some t else store k) := by
    unfold storeInsert
    rw [habsent]
  have hcs1 : (storeInsert store cs (some t)).2 cs = some t := by
    rw [h1]
    simp
  have hmc : t.mergeCounts t = .ok { t with root := some (doubleNode r) } := by
    unfold TypeTree.mergeCounts
    rw [hroot]
    simp [mergeCounts_self r]
  have h2 : storeInsert (storeInsert store cs (some t)).2 cs (some t) =
      (.ok, fun k => if k = cs then
        some { t with root := some (doubleNode r) }
        else (storeInsert store cs (some t)).2 k) := by
    conv_lhs => rw [storeInsert]
    rw [hcs1]
    simp only [bne_self_eq_false, Bool.false_eq_true, if_false]
    rw [hmc]
  refine ⟨by rw [h1], hcs1, by rw [h2], by rw [h2]; simp⟩

/-- Witness for C7 at a concrete store, call stack and tree. -/
theorem storeInsert_merge_idempotence_witness :
    (storeInsert (fun _ => none) [] (some exCountedTree)).1 = .ok ∧
    (storeInsert (fun _ => none) [] (some exCountedTree)).2 [] =
      some exCountedTree ∧
    (storeInsert (storeInsert (fun _ => none) [] (some exCountedTree)).2 []
      (some exCountedTree)).1 = .ok ∧
    (storeInsert (storeInsert (fun _ => none) [] (some exCountedTree)).2 []
      (some exCountedTree)).2 [] =
      some { exCountedTree with root := some (doubleNode exCountedRoot) } :=
  storeInsert_merge_idempotence (fun _ => none) [] exCountedTree
    exCountedRoot rfl rfl

/-! ### C2: histogram collapse -/

/-- C2 counterexample: on a 16-byte tree (`⌈16/8⌉ = 2` collapsed buckets)
with an 8-bucket histogram, the claim's collapse formula (stride
`k = N / 2 = 4`: bucket `i` sums buckets `i, i+4`) yields `[0, 0]` for
`H = [0,0,1,0,0,0,0,0]`, but the code collapses with stride 2 (the
collapsed size), yielding `[1, 0]`; recording `H` indeed adds 1 to the
first 8-byte child, where the claim's formula would add 0. -/
theorem collapseHistogram_claim_counterexample :
    exRec16.fullSizeBytes = 16 ∧
    collapseHistogram 8 [0, 0, 1, 0, 0, 0, 0, 0] exRec16.fullSizeBytes =
      [1, 0] ∧
    collapseSpecClaim [0, 0, 1, 0, 0, 0, 0, 0] 2 = [0, 0] ∧
    (recordAccessHistogramRoot 8 .access exRec16
      [0, 0, 1, 0, 0, 0, 0, 0]).1.children.map Node.totalAccessCount =
      [1, 0] ∧
    (applyHistogramAux 8 .access (collapseSpecClaim [0, 0, 1, 0, 0, 0, 0, 0] 2)
      0 exRec16).children.map Node.totalAccessCount = [0, 0] ∧
    collapseHistogram 8 [0, 0, 1, 0, 0, 0, 0, 0] exRec16.fullSizeBytes ≠
      collapseSpecClaim [0, 0, 1, 0, 0, 0, 0, 0] 2 := by
  exact ⟨by decide, by decide, by decide, by decide, by decide, by decide⟩

/-- C2 amended: for a tree with positive root full size and a histogram
with `N·g ≥ 2·full_size` (g = 8 bytes), `RecordAccessHistogram` collapses
the histogram into `⌈full_size/g⌉` buckets where collapsed bucket `i` is
the sum of the original buckets `i, i+c, i+2c, …` — the *stride* is the
collapsed size `c = ⌈full_size/g⌉` and `N / c` buckets are summed — then
records the collapsed histogram, and returns `FailedPrecondition` exactly
when `N` is not an integer multiple of the collapsed size, with the
recorded counts remaining applied to the tree. -/
theorem recordAccessHistogram_collapse_amended (t : AccessType)
    (root : Node) (H : List Nat) (hpos : 0 < root.fullSizeBytes)
    (hbig : 2 * root.fullSizeBytes ≤ (H.length : Int) * 8) :
    recordAccessHistogramRoot 8 t root H =
      (applyHistogramAux 8 t (collapseHistogram 8 H root.fullSizeBytes) 0
        root,
        if H.length % (collapseHistogram 8 H root.fullSizeBytes).length != 0
        then .failedPrecondition else .ok) ∧
    collapseHistogram 8 H root.fullSizeBytes =
      collapseSpecAmended H root.fullSizeBytes := by
  have hlen : 0 < H.length := by
    by_contra hn
    have : H.length = 0 := by omega
    rw [this] at hbig
    simp at hbig
    omega
  constructor
  · have hb0 : (((H.length : Int) * 8 == 0)) = false := by
      simp only [beq_eq_false_iff_ne, ne_eq]
      omega
    have hb1 : (decide ((H.length : Int) * 8 > root.fullSizeBytes) &&
        decide ((H.length : Int) * 8 < 2 * root.fullSizeBytes)) = false := by
      have h2 : ¬((H.length : Int) * 8 < 2 * root.fullSizeBytes) := by omega
      simp [h2]
    have hb2 : decide ((H.length : Int) * 8 > root.fullSizeBytes) = true := by
      simp only [gt_iff_lt, decide_eq_true_eq]
      omega
    have h2 : ¬((H.length : Int) * 8 < 2 * root.fullSizeBytes) := by omega
    have h3 : root.fullSizeBytes < (H.length : Int) * 8 := by omega
    simp only [recordAccessHistogramRoot, hb0, hb1, hb2,
      Bool.false_eq_true, if_false, if_true]
    simp [h2, h3]
    split <;> rfl
  · have hc : (1 + Int.tdiv (root.fullSizeBytes - 1) ((8 : Nat) : Int)).toNat =
        ((root.fullSizeBytes + 8 - 1) / 8).toNat := by
      rw [Int.tdiv_eq_ediv (by omega) (by norm_num)]
      omega
    simp only [collapseHistogram, collapseSpecAmended]
    rw [hc]
    apply List.map_eq_map_iff.mpr
    intro j _
    apply congrArg
    apply List.map_eq_map_iff.mpr
    intro i _
    apply congrArg (fun x => H.getD x 0)
    exact Nat.add_comm _ _

/-- Witness for the amended C2 at a concrete input: a 4-bucket histogram
on the 16-byte tree. -/
theorem recordAccessHistogram_collapse_amended_witness :
    (0 < exRec16.fullSizeBytes ∧
      2 * exRec16.fullSizeBytes ≤ (([1, 2, 3, 4] : List Nat).length : Int) * 8) ∧
    (recordAccessHistogramRoot 8 .access exRec16 [1, 2, 3, 4] =
      (applyHistogramAux 8 .access
        (collapseHistogram 8 [1, 2, 3, 4] exRec16.fullSizeBytes) 0 exRec16,
        if ([1, 2, 3, 4] : List Nat).length %
            (collapseHistogram 8 [1, 2, 3, 4] exRec16.fullSizeBytes).length
            != 0
        then .failedPrecondition else .ok) ∧
      collapseHistogram 8 [1, 2, 3, 4] exRec16.fullSizeBytes =
        collapseSpecAmended [1, 2, 3, 4] exRec16.fullSizeBytes) :=
  ⟨⟨by decide, by decide⟩,
    recordAccessHistogram_collapse_amended .access exRec16 [1, 2, 3, 4]
      (by decide) (by decide)⟩

/-! ### C1: sum law for aligned histograms -/

/-- `RecordAccess` never changes a node's scalar layout fields. -/
theorem recordAccess_preserves (g : Int) (t : AccessType) (o : Int)
    (c : Nat) (Θ : List Int) (n : Node) :
    (Node.recordAccess g t o c Θ n).1.sizeBits = n.sizeBits ∧
    (Node.recordAccess g t o c Θ n).1.multiplicity = n.multiplicity ∧
    (Node.recordAccess g t o c Θ n).1.globalOffset = n.globalOffset := by
  cases n with
  | mk nm tn ob sb m tk go ac iu cs =>
    rw [Node.recordAccess]
    split
    · exact ⟨rfl, rfl, rfl⟩
    · exact ⟨rfl, rfl, rfl⟩

/-- `incrementAccessCount` adds `count` to `total` for either access
type. -/
theorem incrementAccessCount_total (t : AccessType) (c : Nat)
    (ac : AccessCounters) :
    (incrementAccessCount t c ac).total = ac.total + c := by
  cases t <;> rfl

/-- The per-θ loop of `RecordAccess` adds `count` once per overlapping
array-element offset. -/
theorem foldl_increment_total (t : AccessType) (c : Nat) (p : Int → Bool) :
    ∀ (Θ : List Int) (ac : AccessCounters),
      (Θ.foldl (fun acc θ => if p θ then incrementAccessCount t c acc
        else acc) ac).total = ac.total + c * Θ.countP p := by
  intro Θ
  induction Θ with
  | nil => intro ac; simp
  | cons θ rest ih =>
    intro ac
    rw [List.foldl_cons, List.countP_cons]
    by_cases h : p θ
    · rw [if_pos h, ih, incrementAccessCount_total]
      simp [h]
      ring
    · rw [if_neg h, ih]
      simp [h]

/-- One aligned in-range bucket recorded at the root adds exactly its
count to the root's total. -/
theorem recordAccessRoot_total_step (t : AccessType) (root : Node)
    (o : Int) (c : Nat) (hglob : root.globalOffset = 0) (h0 : 0 ≤ o)
    (hlt : o + 8 ≤ root.fullSizeBytes) :
    (recordAccessRoot 8 t root o c).1.totalAccessCount =
      root.totalAccessCount + c := by
  unfold recordAccessRoot
  rw [if_neg (by omega)]
  cases root with
  | mk nm tn ob sb m tk go ac iu cs =>
    have hgo : go = 0 := hglob
    subst hgo
    have hgb : (Node.mk nm tn ob sb m tk 0 ac iu cs).globalOffsetBytes = 0 := by
      simp [Node.globalOffsetBytes, Node.globalOffset, Int.tdiv]
    have hov : Overlap o (o + 8)
        ((Node.mk nm tn ob sb m tk 0 ac iu cs).globalOffsetBytes)
        ((Node.mk nm tn ob sb m tk 0 ac iu cs).globalOffsetBytes +
          ([0] : List Int).getLastD 0 +
          (Node.mk nm tn ob sb m tk 0 ac iu cs).fullSizeBytes) = true := by
      rw [hgb]
      rw [overlap_iff (by omega)]
      simp at hlt ⊢
      omega
    rw [Node.recordAccess]
    rw [hov]
    simp only [Bool.not_true, Bool.false_eq_true, if_false]
    simp only [Node.totalAccessCount, Node.accessCounters]
    have hp : Overlap o (o + 8)
        ((Node.mk nm tn ob sb m tk 0 ac iu cs).globalOffsetBytes + 0)
        ((Node.mk nm tn ob sb m tk 0 ac iu cs).globalOffsetBytes + 0 +
          (Node.mk nm tn ob sb m tk 0 ac iu cs).fullSizeBytes) = true := by
      rw [hgb]
      rw [overlap_iff (by omega)]
      simp at hlt ⊢
      omega
    simp only [List.foldl_cons, List.foldl_nil]
    rw [if_pos hp]
    exact incrementAccessCount_total t c ac

/-- `TypeTree::RecordAccess` never changes the root's scalar layout
fields. -/
theorem recordAccessRoot_preserves (g : Int) (t : AccessType)
    (root : Node) (o : Int) (c : Nat) :
    (recordAccessRoot g t root o c).1.fullSizeBytes = root.fullSizeBytes ∧
    (recordAccessRoot g t root o c).1.globalOffset = root.globalOffset := by
  have h : (recordAccessRoot g t root o c).1.sizeBits = root.sizeBits ∧
      (recordAccessRoot g t root o c).1.multiplicity = root.multiplicity ∧
      (recordAccessRoot g t root o c).1.globalOffset = root.globalOffset := by
    simp only [recordAccessRoot]
    exact recordAccess_preserves g t _ c [0] root
  refine ⟨?_, h.2.2⟩
  unfold Node.fullSizeBytes
  rw [h.1, h.2.1]

/-- The recording loop adds the histogram sum to the root total, as long
as every bucket lies inside the root's full size. -/
theorem applyHistogramAux_total (t : AccessType) (N : Nat) :
    ∀ (l : List Nat) (k : Nat) (root : Node),
      root.globalOffset = 0 → root.fullSizeBytes = 8 * N →
      k + l.length ≤ N →
      (applyHistogramAux 8 t l k root).totalAccessCount =
        root.totalAccessCount + l.sum := by
  intro l
  induction l with
  | nil =>
    intro k root _ _ _
    simp [applyHistogramAux]
  | cons c rest ih =>
    intro k root h1 h2 h3
    rw [applyHistogramAux]
    have hstep := recordAccessRoot_total_step t root ((k : Int) * 8) c h1
      (by positivity) (by rw [h2]; simp at h3; omega)
    have hpres := recordAccessRoot_preserves 8 t root ((k : Int) * 8) c
    have := ih (k + 1) (recordAccessRoot 8 t root ((k : Int) * 8) c).1
      (by rw [hpres.2, h1]) (by rw [hpres.1, h2])
      (by simp at h3; omega)
    rw [this, hstep]
    simp
    ring

/-- C1: recording an aligned histogram (`|H| · 8 = root.full_size` bytes)
on a tree whose root counter starts at zero succeeds and leaves the
root's total access count equal to the sum of all histogram entries. -/
theorem recordAccessHistogram_aligned_sum (t : AccessType) (root : Node)
    (H : List Nat) (hglob : root.globalOffset = 0)
    (hfull : root.fullSizeBytes = 8 * H.length) (hpos : 0 < H.length)
    (hzero : root.totalAccessCount = 0) :
    (recordAccessHistogramRoot 8 t root H).2 = .ok ∧
    (recordAccessHistogramRoot 8 t root H).1.totalAccessCount = H.sum := by
  have hb0 : (((H.length : Int) * 8 == 0)) = false := by
    simp only [beq_eq_false_iff_ne, ne_eq]
    omega
  have hb1 : ¬((H.length : Int) * 8 > root.fullSizeBytes) := by
    rw [hfull]
    omega
  have hmod : H.length % H.length = 0 := Nat.mod_self H.length
  have htot := applyHistogramAux_total t H.length H 0 root hglob
    (by rw [hfull]) (by omega)
  constructor
  · simp only [recordAccessHistogramRoot, hb0, Bool.false_eq_true, if_false]
    simp [hb1, hmod]
  · simp only [recordAccessHistogramRoot, hb0, Bool.false_eq_true, if_false]
    simp [hb1, hmod]
    rw [htot, hzero]
    simp

/-- Witness for C1: a two-bucket histogram on the 16-byte tree sums into
the root counter. -/
theorem recordAccessHistogram_aligned_sum_witness :
    (recordAccessHistogramRoot 8 .access exRec16 [3, 5]).2 = .ok ∧
    (recordAccessHistogramRoot 8 .access exRec16 [3, 5]).1.totalAccessCount =
      ([3, 5] : List Nat).sum :=
  recordAccessHistogram_aligned_sum .access exRec16 [3, 5] rfl (by decide)
    (by decide) rfl

/-! ### C9: half-open overlap during attribution -/

/-- C9: during `RecordAccess` with an 8-byte bucket `[o, o+8)`, a node's
total counter is incremented once per array-element offset `θ` whose
range `[global_offset + θ, global_offset + θ + full_size)` properly
intersects the bucket — and it changes at all if and only if some `θ`
properly intersects. A bucket that only touches a node's boundary never
increments. The hypotheses state what holds at every real call site: the
offsets are non-negative and `back()` is the largest. -/
theorem recordAccess_overlap_half_open (t : AccessType) (n : Node)
    (o : Int) (c : Nat) (Θ : List Int) (hlb : ∀ θ ∈ Θ, 0 ≤ θ)
    (hub : ∀ θ ∈ Θ, θ ≤ Θ.getLastD 0) (hc : 0 < c) :
    (Node.recordAccess 8 t o c Θ n).1.totalAccessCount =
      n.totalAccessCount + c * Θ.countP (fun θ => properIntersect o (o + 8)
        (n.globalOffsetBytes + θ)
        (n.globalOffsetBytes + θ + n.fullSizeBytes)) ∧
    ((Node.recordAccess 8 t o c Θ n).1.totalAccessCount ≠
        n.totalAccessCount ↔
      ∃ θ ∈ Θ, max o (n.globalOffsetBytes + θ) <
        min (o + 8) (n.globalOffsetBytes + θ + n.fullSizeBytes)) := by
  cases n with
  | mk nm tn ob sb m tk go ac iu cs =>
    rw [Node.recordAccess]
    by_cases hpr : Overlap o (o + 8)
        ((Node.mk nm tn ob sb m tk go ac iu cs).globalOffsetBytes)
        ((Node.mk nm tn ob sb m tk go ac iu cs).globalOffsetBytes +
          Θ.getLastD 0 +
          (Node.mk nm tn ob sb m tk go ac iu cs).fullSizeBytes) = true
    · rw [if_neg (by rw [hpr]; simp)]
      simp only [Node.totalAccessCount, Node.accessCounters]
      have heq := foldl_increment_total t c
        (fun θ => Overlap o (o + 8)
          ((Node.mk nm tn ob sb m tk go ac iu cs).globalOffsetBytes + θ)
          ((Node.mk nm tn ob sb m tk go ac iu cs).globalOffsetBytes + θ +
            (Node.mk nm tn ob sb m tk go ac iu cs).fullSizeBytes)) Θ ac
      simp only [] at heq
      rw [heq]
      have hcnt : Θ.countP (fun θ => Overlap o (o + 8)
          ((Node.mk nm tn ob sb m tk go ac iu cs).globalOffsetBytes + θ)
          ((Node.mk nm tn ob sb m tk go ac iu cs).globalOffsetBytes + θ +
            (Node.mk nm tn ob sb m tk go ac iu cs).fullSizeBytes)) =
          Θ.countP (fun θ => properIntersect o (o + 8)
          ((Node.mk nm tn ob sb m tk go ac iu cs).globalOffsetBytes + θ)
          ((Node.mk nm tn ob sb m tk go ac iu cs).globalOffsetBytes + θ +
            (Node.mk nm tn ob sb m tk go ac iu cs).fullSizeBytes)) :=
        congrArg (fun p => List.countP p Θ)
          (funext fun θ => overlap_eq_properIntersect (by omega))
      rw [hcnt]
      refine ⟨rfl, ?_⟩
      constructor
      · intro h
        have hkpos : 0 < Θ.countP (fun θ => properIntersect o (o + 8)
            ((Node.mk nm tn ob sb m tk go ac iu cs).globalOffsetBytes + θ)
            ((Node.mk nm tn ob sb m tk go ac iu cs).globalOffsetBytes + θ +
              (Node.mk nm tn ob sb m tk go ac iu cs).fullSizeBytes)) := by
          by_contra hk0
          have hz : Θ.countP (fun θ => properIntersect o (o + 8)
              ((Node.mk nm tn ob sb m tk go ac iu cs).globalOffsetBytes + θ)
              ((Node.mk nm tn ob sb m tk go ac iu cs).globalOffsetBytes + θ +
                (Node.mk nm tn ob sb m tk go ac iu cs).fullSizeBytes)) = 0 :=
            by omega
          rw [hz] at h
          simp at h
        obtain ⟨θ, hθ, hp⟩ := List.countP_pos_iff.mp hkpos
        exact ⟨θ, hθ,
          by simpa only [properIntersect, decide_eq_true_eq] using hp⟩
      · rintro ⟨θ, hθ, hp⟩
        have hp' : properIntersect o (o + 8)
            ((Node.mk nm tn ob sb m tk go ac iu cs).globalOffsetBytes + θ)
            ((Node.mk nm tn ob sb m tk go ac iu cs).globalOffsetBytes + θ +
              (Node.mk nm tn ob sb m tk go ac iu cs).fullSizeBytes) = true := by
          simp only [properIntersect, decide_eq_true_eq]
          exact hp
        have hkpos : 0 < Θ.countP (fun θ => properIntersect o (o + 8)
            ((Node.mk nm tn ob sb m tk go ac iu cs).globalOffsetBytes + θ)
            ((Node.mk nm tn ob sb m tk go ac iu cs).globalOffsetBytes + θ +
              (Node.mk nm tn ob sb m tk go ac iu cs).fullSizeBytes)) :=
          List.countP_pos_iff.mpr ⟨θ, hθ, hp'⟩
        have := Nat.mul_pos hc hkpos
        omega
    · have hov : Overlap o (o + 8)
          ((Node.mk nm tn ob sb m tk go ac iu cs).globalOffsetBytes)
          ((Node.mk nm tn ob sb m tk go ac iu cs).globalOffsetBytes +
            Θ.getLastD 0 +
            (Node.mk nm tn ob sb m tk go ac iu cs).fullSizeBytes) = false :=
        by revert hpr; cases h : Overlap o (o + 8) _ _ <;> simp
      rw [if_pos (by rw [hov]; simp)]
      have hkey : ∀ θ ∈ Θ, ¬(max o
          ((Node.mk nm tn ob sb m tk go ac iu cs).globalOffsetBytes + θ) <
          min (o + 8)
          ((Node.mk nm tn ob sb m tk go ac iu cs).globalOffsetBytes + θ +
            (Node.mk nm tn ob sb m tk go ac iu cs).fullSizeBytes)) := by
        intro θ hθ hcontra
        have h1 := hlb θ hθ
        have h2 := hub θ hθ
        have hbig : Overlap o (o + 8)
            ((Node.mk nm tn ob sb m tk go ac iu cs).globalOffsetBytes)
            ((Node.mk nm tn ob sb m tk go ac iu cs).globalOffsetBytes +
              Θ.getLastD 0 +
              (Node.mk nm tn ob sb m tk go ac iu cs).fullSizeBytes) =
            true := by
          rw [overlap_iff (by omega)]
          omega
        rw [hbig] at hov
        simp at hov
      have hcount : Θ.countP (fun θ => properIntersect o (o + 8)
          ((Node.mk nm tn ob sb m tk go ac iu cs).globalOffsetBytes + θ)
          ((Node.mk nm tn ob sb m tk go ac iu cs).globalOffsetBytes + θ +
            (Node.mk nm tn ob sb m tk go ac iu cs).fullSizeBytes)) = 0 := by
        apply List.countP_eq_zero.mpr
        intro θ hθ
        simp only [properIntersect, decide_eq_true_eq]
        exact hkey θ hθ
      refine ⟨by rw [hcount]; rfl, ?_⟩
      constructor
      · intro h
        exact absurd rfl h
      · rintro ⟨θ, hθ, hp⟩
        exact absurd hp (hkey θ hθ)

/-- Witness for C9 at a concrete node and offset list. -/
theorem recordAccess_overlap_half_open_witness :
    (Node.recordAccess 8 .access 0 1 [0] exRec16).1.totalAccessCount =
      exRec16.totalAccessCount + 1 * ([0] : List Int).countP
        (fun θ => properIntersect 0 (0 + 8) (exRec16.globalOffsetBytes + θ)
          (exRec16.globalOffsetBytes + θ + exRec16.fullSizeBytes)) ∧
    ((Node.recordAccess 8 .access 0 1 [0] exRec16).1.totalAccessCount ≠
        exRec16.totalAccessCount ↔
      ∃ θ ∈ ([0] : List Int), max 0 (exRec16.globalOffsetBytes + θ) <
        min (0 + 8) (exRec16.globalOffsetBytes + θ + exRec16.fullSizeBytes)) :=
  recordAccess_overlap_half_open .access exRec16 0 1 [0] (by decide)
    (by decide) (by decide)

/-! ### C4: Verify and the layout invariant -/

/-- Every node is the head of its own subtree list. -/
theorem self_mem_subtreeNodes (c : Node) : c ∈ c.subtreeNodes := by
  cases c with
  | mk nm tn ob sb m tk go ac iu cs =>
    rw [Node.subtreeNodes]
    exact List.mem_cons_self _ _

mutual

/-- From a successful `Verify` on a union-free subtree under a non-union
parent, the layout invariant holds at every node of the subtree. -/
theorem verify_layout_node : ∀ (p s : Option Node) (n : Node),
    nodeNoUnions n = true →
    (∀ pp, p = some pp → pp.isUnion = false) →
    Node.verify p s n = true → layoutOk n = true
  | p, s, .mk nm tn ob sb m tk go ac iu cs => by
    intro hnu hp hv
    rw [nodeNoUnions] at hnu
    simp only [Bool.and_eq_true, Bool.not_eq_true'] at hnu
    obtain ⟨hiu, hnucs⟩ := hnu
    subst hiu
    have hpm : parentIsUnion p = false := by
      cases p with
      | none => rfl
      | some pp => rw [parentIsUnion]; exact hp pp rfl
    rw [Node.verify.eq_def] at hv
    simp only [] at hv
    rw [hpm] at hv
    simp only [Bool.false_eq_true, if_false] at hv
    rw [Node.isUnion] at hv
    simp only [Bool.false_eq_true, if_false, Bool.and_eq_true] at hv
    obtain ⟨⟨⟨⟨⟨ha, _⟩, _⟩, _⟩, _⟩, hchain⟩ := hv
    have hrec := verify_layout_chain
      (Node.mk nm tn ob sb m tk go ac false cs)
      none cs hnucs (by rw [Node.isUnion]) hchain
    rw [layoutOk]
    simp only [Bool.and_eq_true]
    refine ⟨⟨hrec.2, ?_⟩, hrec.1⟩
    rw [childrenSumOk]
    simp only [Node.children, Node.sizeBits]
    cases hcs : cs.isEmpty with
    | true => simp
    | false =>
      rw [hcs] at ha
      simp only [if_false, Bool.false_eq_true, Bool.and_eq_true] at ha
      simp only [Bool.or_eq_true]
      right
      exact ha.2

/-- From a successful child chain of `Verify` (union-free children of a
non-union parent): every child subtree satisfies the layout invariant and
the children chain by size from the incoming sibling. -/
theorem verify_layout_chain : ∀ (par : Node) (sib : Option Node)
    (cs : List Node), listNoUnions cs = true → par.isUnion = false →
    verifyChildrenChain par sib cs = true →
    layoutOkList cs = true ∧ siblingChainBySize sib cs = true
  | par, sib, [] => by
    intro _ _ _
    exact ⟨rfl, by cases sib <;> rfl⟩
  | par, sib, c :: rest => by
    intro hnu hpu hv
    rw [verifyChildrenChain] at hv
    simp only [Bool.and_eq_true] at hv
    obtain ⟨hvc, hvrest⟩ := hv
    rw [listNoUnions] at hnu
    simp only [Bool.and_eq_true] at hnu
    obtain ⟨hnuc, hnurest⟩ := hnu
    have hrest := verify_layout_chain par (some c) rest hnurest hpu hvrest
    have hcok := verify_layout_node (some par) sib c hnuc
      (fun pp h => by cases h; exact hpu) hvc
    cases c with
    | mk cnm ctn cob csb cm ctk cgo cac ciu ccs =>
      rw [nodeNoUnions] at hnuc
      simp only [Bool.and_eq_true, Bool.not_eq_true'] at hnuc
      obtain ⟨hciu, hccs⟩ := hnuc
      subst hciu
      rw [Node.verify.eq_def] at hvc
      simp only [] at hvc
      have hpm : parentIsUnion (some par) = false := by
        rw [parentIsUnion]
        exact hpu
      rw [hpm] at hvc
      simp only [Bool.false_eq_true, if_false] at hvc
      rw [Node.isUnion] at hvc
      simp only [Bool.false_eq_true, if_false, Bool.and_eq_true] at hvc
      obtain ⟨⟨⟨⟨_, _⟩, _⟩, hd⟩, _⟩ := hvc.1
      refine ⟨?_, ?_⟩
      · rw [layoutOkList]
        simp only [Bool.and_eq_true]
        exact ⟨hcok, hrest.1⟩
      · cases sib with
        | none =>
          rw [siblingChainBySize]
          simp only [Bool.and_eq_true]
          refine ⟨?_, hrest.2⟩
          simp only [] at hd
          simpa only [Node.offsetBits] using hd
        | some s =>
          rw [siblingChainBySize]
          simp only [Bool.and_eq_true]
          refine ⟨?_, hrest.2⟩
          simp only [] at hd
          simp only [Bool.and_eq_true] at hd
          simp only [Node.offsetBits, beq_iff_eq] at hd ⊢
          omega

end

/-- C4 counterexample: `exMultTree` passes `Verify`, its root is a
non-union node with children, yet the second child's offset is *not* the
first child's offset plus the first child's full size (the code checks
progression by plain size, without the multiplicity factor). -/
theorem verify_layout_claim_counterexample :
    verifyTree exMultTree = true ∧
    exMultTree.isUnion = false ∧
    siblingChainByFullSize none exMultTree.children = false := by
  exact ⟨by decide, by decide, by decide⟩

/-- C4 amended: on a tree containing no union nodes, `Verify` returns
`true` only if every node with children `c₁..cₙ` has `c₁.offset = 0`,
each later child's offset equal to the previous child's offset plus the
previous child's *size* (`size_bits`, without the multiplicity factor),
and the children's full sizes (`size · multiplicity`) summing to the
parent's size. -/
theorem verify_layout_invariant (root : Node)
    (hnu : nodeNoUnions root = true) (hv : verifyTree root = true) :
    layoutOk root = true :=
  verify_layout_node none none root hnu (fun _ h => Option.noConfusion h) hv

/-- Witness for the amended C4 on a concrete valid tree. -/
theorem verify_layout_invariant_witness : layoutOk exPlainTree = true :=
  verify_layout_invariant exPlainTree (by decide) (by decide)

/-! ### C10: grafting via MergeTreeIntoThis -/

mutual

/-- `FindNodeWithTypeName` only ever returns a node from the children's
subtrees — never the node it is called on. -/
theorem findNode_mem : ∀ (name : String) (n : Node) (r : Node),
    Node.findNodeWithTypeName name n = some r →
    r ∈ subtreeNodesList n.children
  | name, .mk nm tn ob sb m tk go ac iu cs, r => by
    intro h
    rw [Node.findNodeWithTypeName] at h
    simp only [Node.children]
    exact findInChildren_mem name cs r h

/-- The forest version of `findNode_mem`. -/
theorem findInChildren_mem : ∀ (name : String) (cs : List Node) (r : Node),
    findInChildren name cs = some r → r ∈ subtreeNodesList cs
  | name, [], r => by
    intro h
    rw [findInChildren] at h
    exact Option.noConfusion h
  | name, c :: rest, r => by
    intro h
    rw [findInChildren] at h
    rw [subtreeNodesList]
    by_cases hceq : (c.typeName == name) = true
    · rw [if_pos hceq] at h
      have hcr : c = r := Option.some.inj h
      subst hcr
      exact List.mem_append_left _ (self_mem_subtreeNodes c)
    · rw [if_neg hceq] at h
      cases hfind : Node.findNodeWithTypeName name c with
      | some r' =>
        rw [hfind] at h
        have hrr : r' = r := Option.some.inj h
        subst hrr
        have hmem := findNode_mem name c r' hfind
        apply List.mem_append_left
        cases c with
        | mk cnm ctn cob csb cm ctk cgo cac ciu ccs =>
          rw [Node.subtreeNodes]
          exact List.mem_cons_of_mem _
            (by simpa only [Node.children] using hmem)
      | none =>
        rw [hfind] at h
        exact List.mem_append_right _ (findInChildren_mem name rest r h)

end

/-- C10 counterexample: when no node of the outer tree matches the
element tree's root type name, `MergeTreeIntoThis` returns `NotFound`
(propagated from `FindNodeWithTypeName`), not `InvalidArgument` as the
claim states; the tree is unchanged. -/
theorem mergeTreeIntoThis_notFound_counterexample :
    (exOuterTree.mergeTreeIntoThis (some exUnmatchedTree)).1 = .notFound ∧
    StatusCode.notFound ≠ StatusCode.invalidArgument ∧
    (exOuterTree.mergeTreeIntoThis (some exUnmatchedTree)).2 = exOuterTree :=
  ⟨rfl, by decide, rfl⟩

/-- C10 amended: `MergeTreeIntoThis` searches only proper descendants of
the outer root (the outer root itself is never the merge target), and it
returns, without modifying the outer tree: `InvalidArgument` when the
outer tree is empty, when the other tree is null, or when the first
matching node already has children; and `NotFound` (not
`InvalidArgument`) when no node has a type name equal to the element
tree's root type name. -/
theorem mergeTreeIntoThis_contract (t : TypeTree) (other : Option TypeTree) :
    (t.root = none → t.mergeTreeIntoThis other = (.invalidArgument, t)) ∧
    (other = none → t.mergeTreeIntoThis other = (.invalidArgument, t)) ∧
    (∀ o, other = some o → t.isEmpty = false →
      t.findNodeWithTypeName o.name = none →
      t.mergeTreeIntoThis other = (.notFound, t)) ∧
    (∀ o mn, other = some o → t.findNodeWithTypeName o.name = some mn →
      mn.children ≠ [] →
      t.mergeTreeIntoThis other = (.invalidArgument, t)) ∧
    (∀ r name nd, t.root = some r →
      Node.findNodeWithTypeName name r = some nd →
      nd ∈ r.properDescendants) := by
  refine ⟨?_, ?_, ?_, ?_, ?_⟩
  · intro h
    unfold TypeTree.mergeTreeIntoThis
    rw [if_pos (by simp [TypeTree.isEmpty, h])]
  · intro h
    subst h
    unfold TypeTree.mergeTreeIntoThis
    cases hEmpty : t.isEmpty with
    | true => rfl
    | false => rfl
  · intro o ho hEmpty hfind
    subst ho
    unfold TypeTree.mergeTreeIntoThis
    rw [if_neg (by simp [hEmpty])]
    simp only []
    rw [hfind]
  · intro o mn ho hfind hne
    subst ho
    have hEmpty : t.isEmpty = false := by
      unfold TypeTree.findNodeWithTypeName at hfind
      cases hroot : t.root with
      | none => rw [hroot] at hfind; exact Option.noConfusion hfind
      | some r => simp [TypeTree.isEmpty, hroot]
    unfold TypeTree.mergeTreeIntoThis
    rw [if_neg (by simp [hEmpty])]
    simp only []
    rw [hfind]
    simp only []
    rw [if_pos]
    simp only [bne_iff_ne, ne_eq, Node.numChildren]
    simpa using hne
  · intro r name nd hroot hfind
    exact findNode_mem name r nd hfind

/-- Witness for the amended C10: an outer tree whose matching node
already has a child is rejected with `InvalidArgument` and left
unchanged; the found node is a proper descendant of the root. -/
theorem mergeTreeIntoThis_contract_witness :
    exOuterTreeBusy.mergeTreeIntoThis (some exBTree) =
      (.invalidArgument, exOuterTreeBusy) ∧
    exBusyNode ∈ exBusyRoot.properDescendants :=
  ⟨(mergeTreeIntoThis_contract exOuterTreeBusy (some exBTree)).2.2.2.1
      exBTree exBusyNode rfl rfl (fun h => List.noConfusion h),
    (mergeTreeIntoThis_contract exOuterTreeBusy (some exBTree)).2.2.2.2
      exBusyRoot "B" exBusyNode rfl rfl⟩

/-! ### C5: SwissMap backing array sizing -/

/-- C5: the synthesized SwissMap capacity, computed by the source in bits
as `(request_size - (kWidth-1)·8 - size_t_size) / (slot_type_size + 8)`,
equals the claim's byte-level formula
`(R_bytes - (G-1) - W_bytes) / (s_bytes + 1)` with `G = 16`, `W = 8`
bytes — in particular 35 at `R = 128`, `s_bytes = 2` — and the resolver
returns a tree only when its full size in bytes equals the requested
allocation size, reporting `Internal` (and no tree) on a mismatch. -/
theorem swissMap_capacity_size_check (R s : Int) (hs : 0 ≤ s)
    (hR : 23 ≤ R) :
    swissMapCapacity (R * 8) (s * 8) 64 16 = Int.tdiv (R - 15 - 8) (s + 1) ∧
    swissMapCapacity (128 * 8) (2 * 8) 64 16 = 35 ∧
    (∀ (et : TypeTree) (A Rq : Int) (tr : TypeTree),
      (resolveSwissMapBackingArray et A Rq).2 = some tr →
      (resolveSwissMapBackingArray et A Rq).1 = .ok ∧
      ∃ mr, tr.root = some mr ∧ mr.fullSizeBytes = Rq) ∧
    (∀ (et : TypeTree) (A Rq : Int) (er : Node) (m : TypeTree) (mr : Node),
      et.root = some er →
      TypeTree.mergeTreeIntoThis
        ⟨some (getSwissMapTemplate et.name er.fullSizeBits A 64 16 (Rq * 8)),
          wrapType "absl::container_internal::raw_hash_set" et.name, true,
          "absl::container_internal::raw_hash_set"⟩ (some et) = (.ok, m) →
      m.root = some mr → mr.fullSizeBytes ≠ Rq →
      resolveSwissMapBackingArray et A Rq = (.internal, none)) := by
  refine ⟨?_, by decide, ?_, ?_⟩
  · have h1 : R * 8 - (16 - 1) * 8 - 64 = 8 * (R - 23) := by ring
    have h2 : s * 8 + 8 = 8 * (s + 1) := by ring
    unfold swissMapCapacity
    rw [h1, h2]
    rw [Int.tdiv_eq_ediv (by omega) (by omega)]
    rw [Int.mul_ediv_mul_of_pos _ _ (by norm_num : (0 : Int) < 8)]
    rw [Int.tdiv_eq_ediv (by omega) (by omega)]
    congr 1
    ring
  · intro et A Rq tr h
    unfold resolveSwissMapBackingArray at h ⊢
    cases hroot : et.root with
    | none =>
      rw [hroot] at h
      simp at h
    | some er =>
      rw [hroot] at h
      simp only [] at h ⊢
      rcases hm : TypeTree.mergeTreeIntoThis
        ⟨some (getSwissMapTemplate et.name er.fullSizeBits A 64 16 (Rq * 8)),
          wrapType "absl::container_internal::raw_hash_set" et.name, true,
          "absl::container_internal::raw_hash_set"⟩ (some et) with ⟨st, merged⟩
      cases st with
      | ok =>
        rw [hm] at h
        simp only [] at h ⊢
        cases hmr : merged.root with
        | none =>
          rw [hmr] at h
          simp at h
        | some mr =>
          rw [hmr] at h
          simp only [] at h ⊢
          by_cases hne : Rq ≠ mr.fullSizeBytes
          · rw [if_pos hne] at h
            simp at h
          · rw [if_neg hne] at h ⊢
            simp at h hne
            subst h
            exact ⟨rfl, mr, hmr, hne.symm⟩
      | invalidArgument => rw [hm] at h; simp at h
      | notFound => rw [hm] at h; simp at h
      | failedPrecondition => rw [hm] at h; simp at h
      | unimplemented => rw [hm] at h; simp at h
      | internal => rw [hm] at h; simp at h
  · intro et A Rq er m mr hroot hmerge hmr hne
    unfold resolveSwissMapBackingArray
    rw [hroot]
    simp only []
    rw [hmerge]
    simp only []
    rw [hmr]
    simp only []
    rw [if_pos (Ne.symm hne)]

/-- Witness for C5 at `R = 128`, `s = 2` bytes. -/
theorem swissMap_capacity_size_check_witness :
    swissMapCapacity (128 * 8) (2 * 8) 64 16 =
      Int.tdiv (128 - 15 - 8) (2 + 1) ∧
    swissMapCapacity (128 * 8) (2 * 8) 64 16 = 35 :=
  ⟨(swissMap_capacity_size_check 128 2 (by norm_num) (by norm_num)).1,
    (swissMap_capacity_size_check 128 2 (by norm_num) (by norm_num)).2.1⟩

end FieldAccess
